import Mathlib

/-!
Verification development for the BWF calendar synchronisation script
(`bwf-calendar-bot.py`).  The script scrapes a tournament calendar page,
filters tournament rows, resolves free-text date ranges with
`dateutil.parser.parse`, and idempotently writes all-day events to a
Google calendar.

The embedding below translates, from the source:
  * the date-range resolution logic of `create_calendar_events`
    (lines 129-150), including a model of `dateutil.parser.parse`
    (python-dateutil 2.9) restricted to the token shapes the script
    constructs (whitespace-separated decimal tokens and month names);
  * the retention filter of `scrape_corporate_calendar` (line 107);
  * the HTML extraction skeleton of `scrape_corporate_calendar`
    (lines 75-120) over a tree model of parsed HTML;
  * the per-record calendar reconciliation of `create_calendar_events`
    (lines 152-179), with the external Google Calendar service
    modelled from its documented `listEvents`/`insertEvent` interface.
-/

namespace BWF

/-! ## Calendar dates (model of `datetime.date`) -/

/-- A calendar date, as `datetime.date(year, month, day)`. -/
structure Date where
  year : Nat
  month : Nat
  day : Nat
deriving DecidableEq, Repr

/-- Gregorian leap year test, as `calendar.isleap`. -/
def isLeap (y : Nat) : Bool :=
  y % 4 == 0 && (y % 100 != 0 || y % 400 == 0)

/-- Number of days of month `m` of year `y`, as `calendar.monthrange(y, m)[1]`
(0 for a month index outside 1..12, where python would raise). -/
def daysInMonth (y m : Nat) : Nat :=
  if m == 1 then 31 else if m == 2 then (if isLeap y then 29 else 28)
  else if m == 3 then 31 else if m == 4 then 30 else if m == 5 then 31
  else if m == 6 then 30 else if m == 7 then 31 else if m == 8 then 31
  else if m == 9 then 30 else if m == 10 then 31 else if m == 11 then 30
  else if m == 12 then 31 else 0

/-- Comparison `a < b` of `datetime.date` values (lexicographic on year, month, day). -/
def Date.ltB (a b : Date) : Bool :=
  a.year < b.year ||
    (a.year == b.year &&
      (a.month < b.month || (a.month == b.month && a.day < b.day)))

/-- Comparison `a <= b` of `datetime.date` values. -/
def Date.leB (a b : Date) : Bool :=
  Date.ltB a b || a == b

/-- The date `d + datetime.timedelta(days=1)`. -/
def nextDay (d : Date) : Date :=
  if d.day < daysInMonth d.year d.month then ⟨d.year, d.month, d.day + 1⟩
  else if d.month < 12 then ⟨d.year, d.month + 1, 1⟩
  else ⟨d.year + 1, 1, 1⟩

/-- The date `d + relativedelta(months=1)`: advance the month (rolling the year over),
clamping the day to the length of the target month. -/
def addOneMonth (d : Date) : Date :=
  let y := if d.month == 12 then d.year + 1 else d.year
  let m := if d.month == 12 then 1 else d.month + 1
  ⟨y, m, min d.day (daysInMonth y m)⟩

/-! ## Python string primitives used by the script -/

/-- Whether `needle` occurs at the front of `hay` (on character lists). -/
def leadsWith : List Char → List Char → Bool
  | [], _ => true
  | _ :: _, [] => false
  | c :: cs, d :: ds => c == d && leadsWith cs ds

/-- Whether `hay` has `needle` as a contiguous sublist. -/
def hasSub (hay needle : List Char) : Bool :=
  leadsWith needle hay ||
    (match hay with
     | [] => false
     | _ :: t => hasSub t needle)

/-- Python `needle in hay` on strings (contiguous substring test). -/
def pyIn (needle hay : String) : Bool :=
  hasSub hay.toList needle.toList

/-- Python `str.lower()` (ASCII-adequate for the script's keywords). -/
def pyLower (s : String) : String :=
  String.mk (s.toList.map Char.toLower)

/-- Split a character list at every character satisfying `p`, keeping
empty pieces (the semantics of python `str.split(sep)`). -/
def splitEvery (p : Char → Bool) : List Char → List (List Char)
  | [] => [[]]
  | c :: cs =>
    let rest := splitEvery p cs
    if p c then [] :: rest
    else
      match rest with
      | [] => [[c]]
      | piece :: more => (c :: piece) :: more

/-- Python `str.split()` with no argument: split on whitespace runs,
dropping empty pieces. -/
def pySplitWs (s : String) : List String :=
  ((splitEvery Char.isWhitespace s.toList).filter (fun t => t ≠ [])).map String.mk

/-- Join a list of strings with single spaces. -/
def joinSpaces : List String → String
  | [] => ""
  | [t] => t
  | t :: ts => t ++ " " ++ joinSpaces ts

/-- Python `" ".join(s.split())`, the whitespace normalisation at line 130. -/
def normSpaces (s : String) : String :=
  joinSpaces (pySplitWs s)

/-- Python `s.split('-')`: split at every hyphen, keeping empty pieces. -/
def pySplitHyphen (s : String) : List String :=
  (splitEvery (fun c => c == '-') s.toList).map String.mk

/-- Python `str.strip()`: drop leading and trailing whitespace. -/
def pyStrip (s : String) : String :=
  String.mk (((s.toList.dropWhile Char.isWhitespace).reverse.dropWhile
    Char.isWhitespace).reverse)

/-- Numeric value of a decimal-digit character list. -/
def digitsVal (cs : List Char) : Nat :=
  cs.foldl (fun acc c => acc * 10 + (c.toNat - 48)) 0

/-! ## Model of `dateutil.parser.parse` (python-dateutil 2.9)

The script feeds `parser.parse` strings assembled from the scraped date
text, a month heading and a year, then keeps only `.date()`.  The model
below follows `dateutil/parser/_parser.py` (`_parse`,
`_parse_numeric_token`, `_ymd.append`, `_ymd.resolve_ymd`,
`parserinfo.convertyear`, `_build_naive`) for the token universe the
script can produce: whitespace-separated tokens that are decimal-digit
runs or month names.  Any other token, and any parse that does not
determine all of year, month and day (where dateutil would fill the
missing fields from the current clock), is mapped to `none`; the model
therefore only certifies parses that dateutil resolves to a full
explicit date.  `dayfirst`/`yearfirst` are the dateutil defaults
(`False`), and the reference year of `convertyear` is 2025 (the
script's own fixed year, and the year of the runs this models). -/

/-- Month-name table of `parserinfo.MONTHS` (lowercased), as at
`_parser.py`: full names and abbreviations, value 1..12. -/
def monthIndex (tok : String) : Option Nat :=
  let t := pyLower tok
  if t == "jan" || t == "january" then some 1
  else if t == "feb" || t == "february" then some 2
  else if t == "mar" || t == "march" then some 3
  else if t == "apr" || t == "april" then some 4
  else if t == "may" then some 5
  else if t == "jun" || t == "june" then some 6
  else if t == "jul" || t == "july" then some 7
  else if t == "aug" || t == "august" then some 8
  else if t == "sep" || t == "sept" || t == "september" then some 9
  else if t == "oct" || t == "october" then some 10
  else if t == "nov" || t == "november" then some 11
  else if t == "dec" || t == "december" then some 12
  else none

/-- Parser state: the `_ymd` list with its month/year labels, the
`century_specified` flag, and the time fields of `_result` that the
relevant branches can set. -/
structure YmdState where
  vals : List Nat
  mstridx : Option Nat
  ystridx : Option Nat
  century : Bool
  hour : Option Nat
  minute : Option Nat
deriving Repr

def YmdState.init : YmdState :=
  ⟨[], none, none, false, none, none⟩

/-- Model of `_ymd.append(value)` for a numeric token value (label `Y` exactly
when the value exceeds 100, which also sets `century_specified`);
errors when a year is already present. -/
def ymdAppendNum (st : YmdState) (v : Nat) : Option YmdState :=
  if v > 100 then
    if st.ystridx.isSome then none
    else some { st with vals := st.vals ++ [v],
                        ystridx := some st.vals.length,
                        century := true }
  else
    some { st with vals := st.vals ++ [v] }

/-- Model of `_ymd.append(value, 'M')` for a month-name token; errors when a
month is already present (dateutil raises `Month is already set`). -/
def ymdAppendMonth (st : YmdState) (m : Nat) : Option YmdState :=
  if st.mstridx.isSome then none
  else some { st with vals := st.vals ++ [m], mstridx := some st.vals.length }

/-- Process one token of the restricted universe, following the branch
order of `_parse` / `_parse_numeric_token`.  A decimal token of length
2 or 4 arriving when the ymd list is already full and no hour is set is
consumed as a `HHMM`-style time (this is how the year the script
re-appends to an already complete date string is absorbed: `2025`
becomes the time 20:25).  Digit runs of the `YYMMDD`/`YYYYMMDD` family
lengths and any non-month word are outside the modelled universe. -/
def parseToken (st : YmdState) (tok : String) : Option YmdState :=
  if tok ≠ "" && tok.toList.all Char.isDigit then
    let n := tok.length
    let v := digitsVal tok.toList
    if st.vals.length == 3 && (n == 2 || n == 4) && st.hour.isNone then
      if n == 4 then
        some { st with hour := some (v / 100), minute := some (v % 100) }
      else
        some { st with hour := some v }
    else if n == 6 || n == 8 || n == 12 || n == 14 then
      none
    else if n ≥ 5 then
      none
    else
      ymdAppendNum st v
  else
    match monthIndex tok with
    | some m => ymdAppendMonth st m
    | none => none

/-- Model of `parserinfo.convertyear` with `_year = 2025`, `_century = 2000`. -/
def convertyear (y : Nat) (century : Bool) : Nat :=
  if y < 100 && !century then
    let y := y + 2000
    if y ≥ 2075 then y - 100 else y
  else y

/-- Model of `_ymd.resolve_ymd(yearfirst=False, dayfirst=False)` restricted to
the reachable states (a day label is never produced in this universe).
Returns the `(year, month, day)` assignment; components dateutil would
leave to be filled from the current clock come out as `none`. -/
def resolveYmd (st : YmdState) : Option Nat × Option Nat × Option Nat :=
  let vals := st.vals
  let len := vals.length
  let nstr := (if st.mstridx.isSome then 1 else 0) +
              (if st.ystridx.isSome then 1 else 0)
  if (len == nstr && nstr > 0) || (len == 3 && nstr == 2) then
    -- _resolve_from_stridxs: positions fixed by labels, the single
    -- remaining position (if any) is the day.
    match st.mstridx, st.ystridx with
    | some mi, some yi =>
      if len == 3 then
        let di := (List.range 3).findSome?
          (fun i => if i ≠ mi && i ≠ yi then some i else none)
        (vals.get? yi, vals.get? mi, di.bind (fun i => vals.get? i))
      else (vals.get? yi, vals.get? mi, none)
    | some mi, none => (none, vals.get? mi, none)
    | none, some yi => (vals.get? yi, none, none)
    | none, none => (none, none, none)
  else if len > 3 then (none, none, none)
  else if len == 1 || (st.mstridx.isSome && len == 2) then
    match st.mstridx with
    | some mi =>
      let month := vals.get? mi
      if len > 1 then
        -- other = self[mstridx - 1] (python index arithmetic, mi ∈ {0,1})
        let oi := if mi == 0 then 1 else 0
        match vals.get? oi with
        | some o => if o > 31 then (some o, month, none) else (none, month, some o)
        | none => (none, month, none)
      else (none, month, none)
    | none =>
      match vals.get? 0 with
      | some o => if o > 31 then (some o, none, none) else (none, none, some o)
      | none => (none, none, none)
  else if len == 2 then
    match vals.get? 0, vals.get? 1 with
    | some a, some b =>
      if a > 31 then (some a, some b, none)
      else if b > 31 then (some b, some a, none)
      else (none, some a, some b)
    | _, _ => (none, none, none)
  else if len == 3 then
    match vals.get? 0, vals.get? 1, vals.get? 2 with
    | some a, some b, some c =>
      match st.mstridx with
      | some 0 => if b > 31 then (some b, some a, some c) else (some c, some a, some b)
      | some 1 => if a > 31 then (some a, some b, some c) else (some c, some b, some a)
      | some 2 => if b > 31 then (some b, some c, some a) else (some a, some c, some b)
      | _ =>
        if a > 31 || st.ystridx == some 0 then (some a, some b, some c)
        else if a > 12 then (some c, some b, some a)
        else (some c, some a, some b)
    | _, _, _ => (none, none, none)
  else (none, none, none)

/-- Model of `dateutil.parser.parse(s).date()` on the restricted
universe: tokenize on whitespace, fold the token step, resolve the ymd
list, convert the year, and validate the resulting datetime the way
`datetime.datetime(...)` would (also requiring all three date
components to be explicit). -/
def parserParse (s : String) : Option Date := do
  let st ← (pySplitWs s).foldlM parseToken YmdState.init
  let (oy, om, od) := resolveYmd st
  let y0 ← oy
  let m ← om
  let d ← od
  let y := convertyear y0 st.century
  if 1 ≤ y && y ≤ 9999 && 1 ≤ m && m ≤ 12 && 1 ≤ d && d ≤ daysInMonth y m
      && st.hour.getD 0 ≤ 23 && st.minute.getD 0 ≤ 59 then
    some ⟨y, m, d⟩
  else none

/-! ## Tournament records and date-range resolution -/

/-- The dictionary appended by `scrape_corporate_calendar`
(lines 108-117). -/
structure TournamentRecord where
  name : String
  dates : String
  month : String
  country : String
  city : String
  category : String
  prize_money : Option String
  year : String
deriving DecidableEq, Repr

/-- The raw parsing phase of `create_calendar_events` (lines 129-142):
build `date_str` from the record's dates text, month and year,
normalise whitespace, split on hyphens, and parse the start and end
parts; the month-wrap correction of lines 144-145 is applied
afterwards by `resolveDates`.  `none` models a raised
`ParserError` (the record is then skipped by the `except` at
line 178). -/
def parseRawRange (dates month year : String) : Option (Date × Date) := do
  let dateStr := normSpaces (dates ++ " " ++ month ++ " " ++ year)
  let dateParts := pySplitHyphen dateStr
  if dateParts.length > 1 then
    let startPart := pyStrip (dateParts.getD 0 "")
    let endPart := pyStrip (dateParts.getD 1 "")
    let startDate ← parserParse (startPart ++ " " ++ month ++ " " ++ year)
    let endDate ←
      if !(endPart.toList.any Char.isAlpha) then
        parserParse (endPart ++ " " ++ month ++ " " ++ year)
      else
        parserParse (endPart ++ " " ++ year)
    some (startDate, endDate)
  else
    let d ← parserParse dateStr
    some (d, d)

/-- Date resolution of `create_calendar_events` (lines 129-148): the
raw parse followed by the month-wrap correction (if the parsed end
precedes the start, advance the end by one month). -/
def resolveDates (dates month year : String) : Option (Date × Date) := do
  let (startDate, endDate) ← parseRawRange dates month year
  if Date.ltB endDate startDate then
    some (startDate, addOneMonth endDate)
  else
    some (startDate, endDate)

/-! ## Retention filter of `scrape_corporate_calendar` (lines 71-72, 107) -/

/-- Marquee-name keywords (line 71). -/
def name_keywords : List String :=
  ["sudirman", "world championships", "world tour finals"]

/-- Tier keyword (line 72). -/
def category_keyword : String := "super"

/-- The retention condition of line 107:
`category_keyword.lower() in category.lower() or
 any(k.lower() in name.lower() for k in name_keywords)`. -/
def retain (category name : String) : Bool :=
  pyIn (pyLower category_keyword) (pyLower category) ||
    name_keywords.any (fun k => pyIn (pyLower k) (pyLower name))

/-- The filter stage of the extractor: a candidate row's record is
appended exactly when `retain` holds of its category and name. -/
def filterRecords (rs : List TournamentRecord) : List TournamentRecord :=
  rs.filter (fun r => retain r.category r.name)

/-! ## HTML tree model and the extractor -/

/-- Parsed HTML element: tag name, optional id attribute, class list,
the element's own text, and child elements (the tree BeautifulSoup
builds from the raw markup). -/
inductive Html where
  | elem (tag : String) (idAttr : Option String) (classes : List String)
      (text : String) (children : List Html)

def Html.tag : Html → String
  | .elem t _ _ _ _ => t

def Html.idAttr : Html → Option String
  | .elem _ i _ _ _ => i

def Html.classes : Html → List String
  | .elem _ _ c _ _ => c

def Html.children : Html → List Html
  | .elem _ _ _ _ ch => ch

mutual
/-- The element itself followed by all its descendants, preorder. -/
def allElems : Html → List Html
  | .elem t i c x ch => .elem t i c x ch :: allElemsL ch

def allElemsL : List Html → List Html
  | [] => []
  | h :: hs => allElems h ++ allElemsL hs
end

mutual
/-- Concatenated text of an element and its descendants
(model of `get_text`). -/
def getText : Html → String
  | .elem _ _ _ x ch => x ++ getTextL ch

def getTextL : List Html → String
  | [] => ""
  | h :: hs => getText h ++ getTextL hs
end

/-- All descendants of an element (the element itself excluded), the
search space of BeautifulSoup `find_all`/`select` on that element. -/
def descendants (n : Html) : List Html :=
  allElemsL n.children

/-- Model of `soup.select_one("#ajaxCalender")`: the first element of the
document with the given id attribute. -/
def selectId (doc : Html) (i : String) : Option Html :=
  (allElems doc).find? (fun n => n.idAttr == some i)

/-- First descendant with the given tag (`select_one("h2")`). -/
def selectTag (n : Html) (t : String) : Option Html :=
  (descendants n).find? (fun d => d.tag == t)

/-- Descendants with the given class (`select(".cls")`). -/
def selectClass (n : Html) (c : String) : List Html :=
  (descendants n).filter (fun d => d.classes.contains c)

/-- Rows of `month_div.select("table.tblResultLanding tr[class^='bg-']")`,
each paired with the siblings that follow it in its parent, so that
`find_next_sibling` can be evaluated: tables with class
`tblResultLanding`, and inside them every `tr` child (at any depth)
whose class list has an entry starting with `bg-`. -/
def rowHasBgClass (n : Html) : Bool :=
  n.tag == "tr" && n.classes.any (fun c => leadsWith "bg-".toList c.toList)

mutual
/-- Pairs `(row, later siblings of the row)` for every `bg-` table row
beneath a node. -/
def bgRowsIn : Html → List (Html × List Html)
  | .elem _ _ _ _ ch => bgRowsChildren ch

def bgRowsChildren : List Html → List (Html × List Html)
  | [] => []
  | h :: hs =>
    (if rowHasBgClass h then [(h, hs)] else []) ++ bgRowsIn h ++ bgRowsChildren hs
end

def tournamentRows (monthDiv : Html) : List (Html × List Html) :=
  ((descendants monthDiv).filter
      (fun t => t.tag == "table" && t.classes.contains "tblResultLanding")).flatMap
    bgRowsIn

/-- Model of `cols[3].select_one("div.name a")`: the first anchor nested in a
`div` with class `name`. -/
def nameAnchor (col : Html) : Option Html :=
  (((descendants col).filter
      (fun d => d.tag == "div" && d.classes.contains "name")).flatMap
    (fun d => (descendants d).filter (fun a => a.tag == "a"))).head?

/-- Model of `detail_row.select_one(".bwf-button_group .bwf-button")`. -/
def prizeButton (detail : Html) : Option Html :=
  ((selectClass detail "bwf-button_group").flatMap
    (fun g => selectClass g "bwf-button")).head?

/-- Extraction of one tournament row (lines 87-117): require at least
7 columns, read the fixed column positions, prefer the nested name
link, locate the following detail row for the prize money, and keep
the record when the retention filter holds. -/
def extractRow (month : String) (year : String) (row : Html)
    (laterSiblings : List Html) : List TournamentRecord :=
  let cols := (descendants row).filter (fun d => d.tag == "td")
  if cols.length < 7 then []
  else
    let country := getText (cols.getD 1 (.elem "" none [] "" []))
    let dates := getText (cols.getD 2 (.elem "" none [] "" []))
    let nameCol := cols.getD 3 (.elem "" none [] "" [])
    let name := match nameAnchor nameCol with
      | some a => getText a
      | none => getText nameCol
    let category := getText (cols.getD 5 (.elem "" none [] "" []))
    let city := getText (cols.getD 6 (.elem "" none [] "" []))
    let detailRow := laterSiblings.find?
      (fun s => s.tag == "tr" && s.classes.contains "tr-tournament-detail")
    let prizeMoney := detailRow.bind (fun d =>
      (prizeButton d).map (fun b =>
        pyStrip ((getText b).replace "PRIZE MONEY" "")))
    if retain category name then
      [{ name := name, dates := dates, month := month, country := country,
         city := city, category := category, prize_money := prizeMoney,
         year := year }]
    else []

/-- The script's fixed year (line 73). -/
def current_year : String := "2025"

/-- Model of `scrape_corporate_calendar` (lines 75-120) after the page fetch:
locate the calendar wrapper by id (returning the empty list when it is
absent), then walk month sections and their tournament rows.  Month
sections without an `h2` heading are skipped. -/
def scrape_corporate_calendar (doc : Html) : List TournamentRecord :=
  match selectId doc "ajaxCalender" with
  | none => []
  | some wrapper =>
    (selectClass wrapper "item-results").flatMap (fun monthDiv =>
      match selectTag monthDiv "h2" with
      | none => []
      | some h2 =>
        let month := getText h2
        (tournamentRows monthDiv).flatMap (fun rs =>
          extractRow month current_year rs.1 rs.2))

/-! ## Calendar reconciliation (`create_calendar_events`, lines 152-179)

The Google Calendar service is external to the repository.  Modelled
from the spec: the calendar-service collaborator of section 6,
`listEvents(calendarId, textQuery, timeMin, timeMax) -> list of
events` and `insertEvent(calendarId, eventBody) -> created event
reference`, over a state that is the list of events in the calendar.
A query returns the events whose text fields contain the query text
and whose time span intersects the window (`timeMin` below the
event's exclusive end, start below `timeMax` — the documented
meaning of the two bounds for all-day events).  Service failures
(`CalendarServiceError`) are modelled by two per-record failure
flags, one for the query call and one for the insert call; the
script's `except` at line 178 turns either into a logged skip. -/

/-- An all-day calendar event as the script constructs it
(lines 167-173); `endDate` is the exclusive `end.date`. -/
structure CalEvent where
  summary : String
  location : String
  description : Option String
  startDate : Date
  endDate : Date
deriving DecidableEq, Repr

/-- Operations issued against the calendar service.  The script only
ever lists and inserts; update and delete are included so that their
absence is expressible. -/
inductive CalOp where
  | listq (q : String) (timeMin timeMax : Date)
  | insert (ev : CalEvent)
  | update (ev : CalEvent)
  | delete (ev : CalEvent)
deriving DecidableEq, Repr

/-- Per-record outcome as logged by the script: created (line 176),
already exists (line 162), or a per-record error (line 179) from an
unparseable date or from a calendar-service failure. -/
inductive Outcome where
  | created
  | alreadyExists
  | dateError
  | serviceError
deriving DecidableEq, Repr

/-- Modelled from the spec: whether a stored event matches a
`listEvents` query (free-text containment in the event's text fields,
and overlap of the event's `[start, exclusive end)` span with the
`[timeMin, timeMax)` window). -/
def eventMatches (ev : CalEvent) (q : String) (tmin tmax : Date) : Bool :=
  (pyIn q ev.summary || pyIn q ev.location ||
      (match ev.description with
       | some d => pyIn q d
       | none => false)) &&
    Date.ltB tmin ev.endDate && Date.ltB ev.startDate tmax

/-- Modelled from the spec: the `listEvents` capability over the
calendar state. -/
def listEvents (st : List CalEvent) (q : String) (tmin tmax : Date) :
    List CalEvent :=
  st.filter (fun ev => eventMatches ev q tmin tmax)

/-- The event body built at lines 165-173.  Python's truthiness test
`if event_data['prize_money']` makes the description absent both for a
missing and for an empty prize string. -/
def mkEvent (r : TournamentRecord) (startDate endExclusive : Date) : CalEvent :=
  { summary := r.name ++ " (" ++ r.category ++ ")"
    location := r.city ++ ", " ++ r.country
    description :=
      match r.prize_money with
      | some p => if p ≠ "" then some ("Prize Money: " ++ p) else none
      | none => none
    startDate := startDate
    endDate := endExclusive }

/-- One iteration of the loop of `create_calendar_events`
(lines 127-179) over a single record: resolve the dates (a parse
failure is caught and skips the record), query the calendar for the
window `[startDate, endDate + 1 day)` with the tournament name as
text query, skip when a match exists, otherwise insert the
constructed event.  `qfail`/`ifail` make the query/insert call raise
a service error, which the surrounding `except` turns into a skip.
Returns the new calendar state, the record's outcome, and the trace
of service operations issued. -/
def processRecord (qfail ifail : Bool) (st : List CalEvent)
    (r : TournamentRecord) : List CalEvent × Outcome × List CalOp :=
  match resolveDates r.dates r.month r.year with
  | none => (st, .dateError, [])
  | some (s, e) =>
    let eExcl := nextDay e
    if qfail then (st, .serviceError, [.listq r.name s eExcl])
    else if (listEvents st r.name s eExcl).isEmpty then
      if ifail then
        (st, .serviceError, [.listq r.name s eExcl, .insert (mkEvent r s eExcl)])
      else
        (st ++ [mkEvent r s eExcl], .created,
          [.listq r.name s eExcl, .insert (mkEvent r s eExcl)])
    else (st, .alreadyExists, [.listq r.name s eExcl])

/-- The loop of `create_calendar_events` over a batch of records with a reliable
service: thread the calendar state through the loop and collect the
per-record outcomes. -/
def create_calendar_events (recs : List TournamentRecord)
    (st : List CalEvent) : List CalEvent × List Outcome :=
  match recs with
  | [] => (st, [])
  | r :: rs =>
    let step := processRecord false false st r
    let rest := create_calendar_events rs step.1
    (rest.1, step.2.1 :: rest.2)

/-- The loop of `create_calendar_events` with a per-record service-failure
schedule (query-failure and insert-failure flags per record). -/
def runSched (recs : List (TournamentRecord × Bool × Bool))
    (st : List CalEvent) : List CalEvent × List Outcome :=
  match recs with
  | [] => (st, [])
  | (r, qf, inf) :: rs =>
    let step := processRecord qf inf st r
    let rest := runSched rs step.1
    (rest.1, step.2.1 :: rest.2)

/-! ## Supporting lemmas -/

theorem ltB_iff (a b : Date) :
    Date.ltB a b = true ↔
      a.year < b.year ∨ (a.year = b.year ∧
        (a.month < b.month ∨ (a.month = b.month ∧ a.day < b.day))) := by
  simp [Date.ltB, Bool.or_eq_true, Bool.and_eq_true, decide_eq_true_iff,
    beq_iff_eq]

theorem leB_iff (a b : Date) :
    Date.leB a b = true ↔ Date.ltB a b = true ∨ a = b := by
  simp [Date.leB, Bool.or_eq_true, beq_iff_eq]

theorem ltB_nextDay (d : Date) : Date.ltB d (nextDay d) = true := by
  rw [nextDay]
  split
  · rw [ltB_iff]; dsimp only; omega
  · split
    · rw [ltB_iff]; dsimp only; omega
    · rw [ltB_iff]; dsimp only; omega

theorem leB_ltB_trans {a b c : Date} (h1 : Date.leB a b = true)
    (h2 : Date.ltB b c = true) : Date.ltB a c = true := by
  rcases (leB_iff a b).mp h1 with h | h
  · rw [ltB_iff] at h h2 ⊢
    obtain ⟨ya, ma, da⟩ := a
    obtain ⟨yb, mb, db⟩ := b
    obtain ⟨yc, mc, dc⟩ := c
    simp only at h h2 ⊢
    omega
  · exact h ▸ h2

theorem leadsWith_self_append (xs ys : List Char) :
    leadsWith xs (xs ++ ys) = true := by
  induction xs with
  | nil => rfl
  | cons c cs ih => simp [leadsWith, ih]

theorem pyIn_self_append (a b : String) : pyIn a (a ++ b) = true := by
  rw [pyIn, hasSub.eq_def]
  have h : (a ++ b).toList = a.toList ++ b.toList := String.data_append a b
  rw [h, leadsWith_self_append]
  simp

theorem listEvents_append (st ext : List CalEvent) (q : String)
    (tmin tmax : Date) :
    listEvents (st ++ ext) q tmin tmax =
      listEvents st q tmin tmax ++ listEvents ext q tmin tmax :=
  List.filter_append ..

theorem listEvents_ne_nil_mono {st : List CalEvent} (ext : List CalEvent)
    {q : String} {tmin tmax : Date}
    (h : listEvents st q tmin tmax ≠ []) :
    listEvents (st ++ ext) q tmin tmax ≠ [] := by
  rw [listEvents_append]
  intro hc
  exact h (List.append_eq_nil.mp hc).1

/-- The event the script inserts for a record is returned by the very
query the script made for that record, provided the resolved range is
properly ordered. -/
theorem mkEvent_self_match (r : TournamentRecord) (s e : Date)
    (hle : Date.leB s e = true) :
    eventMatches (mkEvent r s (nextDay e)) r.name s (nextDay e) = true := by
  have hlt : Date.ltB s (nextDay e) = true :=
    leB_ltB_trans hle (ltB_nextDay e)
  simp only [eventMatches, mkEvent]
  rw [show r.name ++ " (" ++ r.category ++ ")" =
        r.name ++ (" (" ++ r.category ++ ")") by
      simp [String.append_assoc]]
  rw [pyIn_self_append, hlt]
  simp

/-- A record step only appends to the calendar state. -/
theorem processRecord_extends (qf inf : Bool) (st : List CalEvent)
    (r : TournamentRecord) :
    ∃ ext, (processRecord qf inf st r).1 = st ++ ext := by
  rw [processRecord]
  rcases resolveDates r.dates r.month r.year with _ | ⟨s, e⟩
  · exact ⟨[], by simp⟩
  · simp only
    split
    · exact ⟨[], by simp⟩
    · split
      · split
        · exact ⟨[], by simp⟩
        · exact ⟨[mkEvent r s (nextDay e)], rfl⟩
      · exact ⟨[], by simp⟩

/-- A full run only appends to the calendar state. -/
theorem run_extends (recs : List TournamentRecord) (st : List CalEvent) :
    ∃ ext, (create_calendar_events recs st).1 = st ++ ext := by
  induction recs generalizing st with
  | nil => exact ⟨[], by simp [create_calendar_events]⟩
  | cons r rs ih =>
    obtain ⟨e1, h1⟩ := processRecord_extends false false st r
    obtain ⟨e2, h2⟩ := ih (processRecord false false st r).1
    refine ⟨e1 ++ e2, ?_⟩
    simp only [create_calendar_events]
    rw [h2, h1, List.append_assoc]

/-! ## Claim theorems -/

/-- C1: For the input rawDateRange "18 - 24" with month "August" and
year "2025", date resolution produces startDate 2025-08-18 and endDate
2025-08-24, and the calendar-write end date (line 150:
`end_date + timedelta(days=1)`, used both as `timeMax` of the
existence query and as the created event's `end.date`) is
2025-08-25. -/
theorem c1_date_resolution_roundtrip :
    resolveDates "18 - 24" "August" "2025" =
        some (⟨2025, 8, 18⟩, ⟨2025, 8, 24⟩) ∧
      nextDay ⟨2025, 8, 24⟩ = ⟨2025, 8, 25⟩ :=
  ⟨rfl, rfl⟩

/-- C2: the cross-month range "28 Jul - 3 Aug" does NOT resolve to
2025-07-28 / 2025-08-03: because `create_calendar_events` appends the
month and year to the raw text before splitting on the hyphen
(lines 129-131), the start parse string already contains the record's
month name next to "Jul" ("28 Jul July 2025"), dateutil raises
`ParserError` on the duplicate month, and the record is skipped —
whatever the record's month heading is.  The right-hand token is
likewise contaminated, so its "no alphabetic characters" test
(line 139) can never see a bare day number when the month heading is
alphabetic.  This theorem exhibits the failing evaluation for both
candidate month headings of such a record. -/
theorem c2_cross_month_resolution_fails :
    resolveDates "28 Jul - 3 Aug" "July" "2025" = none ∧
      resolveDates "28 Jul - 3 Aug" "August" "2025" = none :=
  ⟨rfl, rfl⟩

/-- C4: whenever the raw parse phase yields an end date strictly
before the start date, the resolver advances the end date by exactly
one month (`relativedelta(months=1)`) and leaves the start date
untouched. -/
theorem c4_month_wrap_correction (dates month year : String) (s e : Date)
    (h : parseRawRange dates month year = some (s, e))
    (hlt : Date.ltB e s = true) :
    resolveDates dates month year = some (s, addOneMonth e) := by
  rw [resolveDates]
  rw [h]
  simp [hlt]

/-- Witness for C4 at rawDateRange "30 - 1", month "August", year
"2025": the raw parse gives 2025-08-30 / 2025-08-01, the end precedes
the start, and the resolver returns 2025-08-30 / 2025-09-01. -/
theorem c4_month_wrap_correction_witness :
    parseRawRange "30 - 1" "August" "2025" =
        some (⟨2025, 8, 30⟩, ⟨2025, 8, 1⟩) ∧
      Date.ltB ⟨2025, 8, 1⟩ ⟨2025, 8, 30⟩ = true ∧
      resolveDates "30 - 1" "August" "2025" =
        some (⟨2025, 8, 30⟩, addOneMonth ⟨2025, 8, 1⟩) :=
  ⟨rfl, rfl, c4_month_wrap_correction "30 - 1" "August" "2025"
    ⟨2025, 8, 30⟩ ⟨2025, 8, 1⟩ rfl rfl⟩

/-- C7: for every parsed HTML document in which no element carries the
id `ajaxCalender`, the extractor returns the empty record list (the
model is a total function, so no exception is possible). -/
theorem c7_missing_container (doc : Html)
    (h : selectId doc "ajaxCalender" = none) :
    scrape_corporate_calendar doc = [] := by
  rw [scrape_corporate_calendar, h]

/-- Witness for C7: a document consisting of a bare `html` element
with a `body` child, neither carrying any id. -/
theorem c7_missing_container_witness :
    selectId (.elem "html" none [] "" [.elem "body" none [] "" []])
        "ajaxCalender" = none ∧
      scrape_corporate_calendar
        (.elem "html" none [] "" [.elem "body" none [] "" []]) = [] :=
  ⟨rfl, c7_missing_container
    (.elem "html" none [] "" [.elem "body" none [] "" []]) rfl⟩

/-- C3: a record passes the extractor's filter if and only if its
category contains the tier keyword case-insensitively or its name
contains a marquee keyword case-insensitively; every record the
extractor emits satisfies this condition; category
"HSBC BWF WORLD TOUR SUPER 1000" is retained whatever the name, and
category "BWF TOUR" with name "Malaysia Masters" is excluded. -/
theorem c3_retention_filter :
    (∀ (r : TournamentRecord) (rs : List TournamentRecord),
        r ∈ filterRecords rs ↔ r ∈ rs ∧ retain r.category r.name = true) ∧
      (∀ (doc : Html) (r : TournamentRecord),
          r ∈ scrape_corporate_calendar doc →
            retain r.category r.name = true) ∧
      (∀ name, retain "HSBC BWF WORLD TOUR SUPER 1000" name = true) ∧
      retain "BWF TOUR" "Malaysia Masters" = false := by
  refine ⟨?_, ?_, ?_, ?_⟩
  · intro r rs
    simp [filterRecords, List.mem_filter]
  · intro doc r hr
    rw [scrape_corporate_calendar] at hr
    cases hsel : selectId doc "ajaxCalender" with
    | none => rw [hsel] at hr; simp at hr
    | some w =>
      rw [hsel] at hr
      simp only [List.mem_flatMap] at hr
      obtain ⟨mdiv, _, hr⟩ := hr
      cases hh2 : selectTag mdiv "h2" with
      | none => rw [hh2] at hr; simp at hr
      | some h2 =>
        rw [hh2] at hr
        simp only [List.mem_flatMap] at hr
        obtain ⟨rp, _, hr⟩ := hr
        simp only [extractRow] at hr
        split at hr
        · simp at hr
        · split at hr
          · rename_i hret
            simp only [List.mem_singleton] at hr
            subst hr
            simpa using hret
          · simp at hr
  · intro name
    have h : pyIn (pyLower category_keyword)
        (pyLower "HSBC BWF WORLD TOUR SUPER 1000") = true := by rfl
    simp [retain, h]
  · rfl

/-- A `td` cell holding only text. -/
def tdCell (txt : String) : Html := .elem "td" none [] txt []

/-- A sample tournament row with seven columns and a linked name. -/
def sampleRow : Html :=
  .elem "tr" none ["bg-white"] "" [
    tdCell "1", tdCell "CHN", tdCell "18 - 24",
    .elem "td" none [] "" [.elem "div" none ["name"] "" [
      .elem "a" none [] "BWF World Championships" []]],
    tdCell "", tdCell "HSBC BWF WORLD TOUR SUPER 1000", tdCell "Changzhou"]

/-- A sample document holding the calendar wrapper, one month section
headed "August" and the sample row. -/
def sampleDoc : Html :=
  .elem "html" none [] "" [
    .elem "div" (some "ajaxCalender") [] "" [
      .elem "div" none ["item-results"] "" [
        .elem "h2" none [] "August" [],
        .elem "table" none ["tblResultLanding"] "" [sampleRow]]]]

/-- The record the extractor produces from `sampleDoc`. -/
def sampleRec : TournamentRecord :=
  { name := "BWF World Championships", dates := "18 - 24",
    month := "August", country := "CHN", city := "Changzhou",
    category := "HSBC BWF WORLD TOUR SUPER 1000", prize_money := none,
    year := "2025" }

/-- Witness for C3: the extractor run on `sampleDoc` emits
`sampleRec`, and the retention condition holds of it. -/
theorem c3_retention_filter_witness :
    sampleRec ∈ scrape_corporate_calendar sampleDoc ∧
      retain sampleRec.category sampleRec.name = true := by
  have hmem : sampleRec ∈ scrape_corporate_calendar sampleDoc := by
    rw [show scrape_corporate_calendar sampleDoc = [sampleRec] from rfl]
    exact List.mem_singleton.mpr rfl
  exact ⟨hmem, c3_retention_filter.2.1 sampleDoc sampleRec hmem⟩

/-- Join strings with line breaks. -/
def joinLines : List String → String
  | [] => ""
  | [t] => t
  | t :: ts => t ++ "\n" ++ joinLines ts

/-- The spec's description of the event description, stated in the
spec's own terms: the optional lines (for this revision of the code,
only the prize-money line) joined with line breaks, absent when no
optional data exists. -/
def descriptionSpec (r : TournamentRecord) : Option String :=
  let lines : List String :=
    match r.prize_money with
    | some p => if p = "" then [] else ["Prize Money: " ++ p]
    | none => []
  if lines.isEmpty then none else some (joinLines lines)

/-- C9: whenever the reconciler creates an event for a record, the
created event (appended to the calendar state) has summary
"{name} ({category})", location "{city}, {country}", the description
built from the optional lines and absent when there is no optional
data, start date equal to the resolved start, and end date equal to
the exclusive end (resolved end plus one day). -/
theorem c9_created_event_shape (st : List CalEvent) (r : TournamentRecord)
    (st' : List CalEvent) (ops : List CalOp)
    (h : processRecord false false st r = (st', .created, ops)) :
    ∃ s e, resolveDates r.dates r.month r.year = some (s, e) ∧
      st' = st ++ [{ summary := r.name ++ " (" ++ r.category ++ ")",
                     location := r.city ++ ", " ++ r.country,
                     description := descriptionSpec r,
                     startDate := s,
                     endDate := nextDay e }] := by
  rw [processRecord] at h
  cases hres : resolveDates r.dates r.month r.year with
  | none => rw [hres] at h; simp at h
  | some pr =>
    obtain ⟨s, e⟩ := pr
    rw [hres] at h
    simp only [Bool.false_eq_true, if_false] at h
    split at h
    · refine ⟨s, e, rfl, ?_⟩
      have hst : st' = st ++ [mkEvent r s (nextDay e)] := by
        have := congrArg Prod.fst h
        simpa using this.symm
      rw [hst]
      have hdesc : (mkEvent r s (nextDay e)).description = descriptionSpec r := by
        rw [mkEvent, descriptionSpec]
        cases hp : r.prize_money with
        | none => simp
        | some p =>
          by_cases he : p = ""
          · simp [he]
          · simp [he, joinLines]
      rw [mkEvent] at hdesc ⊢
      simp only at hdesc
      rw [hdesc]
    · exfalso
      have := congrArg (fun t => t.2.1) h
      simp at this

/-- A concrete record with a prize string, used by the C9 witness. -/
def rec9 : TournamentRecord :=
  { name := "China Open", dates := "18 - 24", month := "August",
    country := "CHN", city := "Changzhou",
    category := "HSBC BWF WORLD TOUR SUPER 1000",
    prize_money := some "USD 2,000,000", year := "2025" }

/-- The event `create_calendar_events` builds for `rec9`. -/
def ev9 : CalEvent :=
  { summary := "China Open (HSBC BWF WORLD TOUR SUPER 1000)",
    location := "Changzhou, CHN",
    description := some "Prize Money: USD 2,000,000",
    startDate := ⟨2025, 8, 18⟩, endDate := ⟨2025, 8, 25⟩ }

/-- Witness for C9: processing `rec9` against the empty calendar
creates exactly `ev9`, and the theorem instantiates on that run. -/
theorem c9_created_event_shape_witness :
    processRecord false false [] rec9 =
        ([ev9], .created,
          [.listq "China Open" ⟨2025, 8, 18⟩ ⟨2025, 8, 25⟩, .insert ev9]) ∧
      ∃ s e, resolveDates rec9.dates rec9.month rec9.year = some (s, e) ∧
        [ev9] = [] ++ [{ summary := rec9.name ++ " (" ++ rec9.category ++ ")",
                         location := rec9.city ++ ", " ++ rec9.country,
                         description := descriptionSpec rec9,
                         startDate := s,
                         endDate := nextDay e }] :=
  ⟨rfl, c9_created_event_shape [] rec9 [ev9] _ rfl⟩

/-- Exhaustive characterisation of a reliable-service record step:
date error (no calendar traffic), creation (one query returning
nothing, one insert), or skip (one query returning a match). -/
theorem processRecord_shape (st : List CalEvent) (r : TournamentRecord) :
    (resolveDates r.dates r.month r.year = none ∧
        processRecord false false st r = (st, .dateError, []))
    ∨ (∃ s e, resolveDates r.dates r.month r.year = some (s, e) ∧
        listEvents st r.name s (nextDay e) = [] ∧
        processRecord false false st r =
          (st ++ [mkEvent r s (nextDay e)], .created,
            [.listq r.name s (nextDay e), .insert (mkEvent r s (nextDay e))]))
    ∨ (∃ s e, resolveDates r.dates r.month r.year = some (s, e) ∧
        listEvents st r.name s (nextDay e) ≠ [] ∧
        processRecord false false st r =
          (st, .alreadyExists, [.listq r.name s (nextDay e)])) := by
  cases hres : resolveDates r.dates r.month r.year with
  | none => left; exact ⟨rfl, by simp [processRecord, hres]⟩
  | some pr =>
    obtain ⟨s, e⟩ := pr
    by_cases hemp : (listEvents st r.name s (nextDay e)).isEmpty = true
    · right; left
      refine ⟨s, e, rfl, List.isEmpty_iff.mp hemp, ?_⟩
      simp [processRecord, hres, hemp]
    · right; right
      refine ⟨s, e, rfl, ?_, ?_⟩
      · intro hnil
        exact hemp (by simp [hnil])
      · simp [processRecord, hres, hemp]

/-- C10: one record step issues at most one list query and at most
one insert against the calendar, never an update or delete; an insert
is issued only when the query came back empty; and the prior calendar
state survives as a prefix — events already present are left
unchanged. -/
theorem c10_frame_effects (st : List CalEvent) (r : TournamentRecord) :
    ((processRecord false false st r).2.2.countP
        (fun op => match op with | .listq _ _ _ => true | _ => false) ≤ 1) ∧
      ((processRecord false false st r).2.2.countP
        (fun op => match op with | .insert _ => true | _ => false) ≤ 1) ∧
      ((processRecord false false st r).2.2.all
        (fun op => match op with
          | .update _ => false
          | .delete _ => false
          | _ => true) = true) ∧
      (∃ ext, (processRecord false false st r).1 = st ++ ext) ∧
      (∀ ev, CalOp.insert ev ∈ (processRecord false false st r).2.2 →
        ∃ s e, resolveDates r.dates r.month r.year = some (s, e) ∧
          listEvents st r.name s (nextDay e) = []) := by
  rcases processRecord_shape st r with ⟨_, hp⟩ | ⟨s, e, hres, hnil, hp⟩ |
      ⟨s, e, hres, _, hp⟩ <;> rw [hp]
  · exact ⟨by simp, by simp, by simp, ⟨[], by simp⟩, by simp⟩
  · refine ⟨by simp [List.countP_cons], by simp [List.countP_cons],
      by simp, ⟨[mkEvent r s (nextDay e)], rfl⟩, ?_⟩
    intro ev _
    exact ⟨s, e, hres, hnil⟩
  · exact ⟨by simp [List.countP_cons], by simp [List.countP_cons],
      by simp, ⟨[], by simp⟩, by simp⟩

/-- Witness for C10 on a concrete creating run: the trace of
processing `rec9` from the empty calendar, with the conditional-write
conclusion instantiated at the issued insert. -/
theorem c10_frame_effects_witness :
    (processRecord false false [] rec9).2.2 =
        [.listq "China Open" ⟨2025, 8, 18⟩ ⟨2025, 8, 25⟩, .insert ev9] ∧
      (∃ s e, resolveDates rec9.dates rec9.month rec9.year = some (s, e) ∧
        listEvents [] rec9.name s (nextDay e) = []) := by
  refine ⟨rfl, ?_⟩
  have hmem : CalOp.insert ev9 ∈ (processRecord false false [] rec9).2.2 := by
    rw [show (processRecord false false [] rec9).2.2 =
      [.listq "China Open" ⟨2025, 8, 18⟩ ⟨2025, 8, 25⟩, .insert ev9] from rfl]
    simp
  exact (c10_frame_effects [] rec9).2.2.2.2 ev9 hmem

theorem splitEvery_chars (p : Char → Bool) :
    ∀ (l : List Char), ∀ piece ∈ splitEvery p l, ∀ c ∈ piece, c ∈ l := by
  intro l
  induction l with
  | nil =>
    intro piece hp c hc
    simp [splitEvery] at hp
    subst hp
    simp at hc
  | cons a as ih =>
    intro piece hp c hc
    rw [splitEvery] at hp
    by_cases ha : p a
    · rw [if_pos ha] at hp
      rcases List.mem_cons.mp hp with rfl | hp
      · simp at hc
      · exact List.mem_cons_of_mem a (ih piece hp c hc)
    · rw [if_neg ha] at hp
      cases hrest : splitEvery p as with
      | nil =>
        rw [hrest] at hp
        simp at hp
        subst hp
        simp at hc
        subst hc
        exact List.mem_cons_self _ _
      | cons q qs =>
        rw [hrest] at hp
        rcases List.mem_cons.mp hp with rfl | hp
        · rcases List.mem_cons.mp hc with rfl | hc
          · exact List.mem_cons_self c as
          · exact List.mem_cons_of_mem a
              (ih q (hrest ▸ List.mem_cons_self q qs) c hc)
        · exact List.mem_cons_of_mem a
            (ih piece (hrest ▸ List.mem_cons_of_mem q hp) c hc)

theorem splitEvery_no_sep (p : Char → Bool) :
    ∀ (l : List Char), (∀ c ∈ l, p c = false) → splitEvery p l = [l] := by
  intro l
  induction l with
  | nil => intro _; rfl
  | cons a as ih =>
    intro h
    rw [splitEvery, if_neg (by simp [h a (List.mem_cons_self a as)]),
      ih (fun c hc => h c (List.mem_cons_of_mem a hc))]

theorem mem_toList_append {c : Char} (a b : String) :
    c ∈ (a ++ b).toList ↔ c ∈ a.toList ∨ c ∈ b.toList := by
  have h : (a ++ b).toList = a.toList ++ b.toList := String.data_append a b
  rw [h]
  exact List.mem_append

theorem mem_toList_space {c : Char} :
    c ∈ (" " : String).toList ↔ c = ' ' := by
  have h : (" " : String).toList = [' '] := rfl
  rw [h, List.mem_singleton]

theorem joinSpaces_chars :
    ∀ (ts : List String), ∀ c ∈ (joinSpaces ts).toList,
      c = ' ' ∨ ∃ t ∈ ts, c ∈ t.toList := by
  intro ts
  induction ts with
  | nil =>
    intro c hc
    have h : (joinSpaces []).toList = [] := rfl
    rw [h] at hc
    simp at hc
  | cons t us ih =>
    intro c hc
    cases us with
    | nil =>
      right
      refine ⟨t, List.mem_cons_self t [], ?_⟩
      have h : joinSpaces [t] = t := rfl
      rwa [h] at hc
    | cons u vs =>
      rw [show joinSpaces (t :: u :: vs) = t ++ " " ++ joinSpaces (u :: vs)
          from rfl] at hc
      rcases (mem_toList_append _ _).mp hc with hc | hc
      · rcases (mem_toList_append _ _).mp hc with hc | hc
        · exact Or.inr ⟨t, List.mem_cons_self t _, hc⟩
        · exact Or.inl (mem_toList_space.mp hc)
      · rcases ih c hc with hsp | ⟨v, hv, hcv⟩
        · exact Or.inl hsp
        · exact Or.inr ⟨v, List.mem_cons_of_mem t hv, hcv⟩

/-- Characters of the whitespace-normalised string come from the
original string or are single spaces. -/
theorem normSpaces_chars (s : String) :
    ∀ c ∈ (normSpaces s).toList, c = ' ' ∨ c ∈ s.toList := by
  intro c hc
  rcases joinSpaces_chars (pySplitWs s) c hc with hsp | ⟨t, ht, hct⟩
  · exact Or.inl hsp
  · right
    rw [pySplitWs] at ht
    rcases List.mem_map.mp ht with ⟨piece, hpiece, rfl⟩
    exact splitEvery_chars Char.isWhitespace s.toList piece
      (List.mem_filter.mp hpiece).1 c hct

theorem ltB_irrefl (d : Date) : Date.ltB d d = false := by
  by_contra h
  have := (ltB_iff d d).mp (by revert h; cases Date.ltB d d <;> simp)
  omega

/-- If none of the three input strings contains a hyphen, the
assembled `date_str` splits into a single part. -/
theorem no_hyphen_single_part (dates month year : String)
    (h1 : dates.toList.all (fun c => c ≠ '-') = true)
    (h2 : month.toList.all (fun c => c ≠ '-') = true)
    (h3 : year.toList.all (fun c => c ≠ '-') = true) :
    pySplitHyphen (normSpaces (dates ++ " " ++ month ++ " " ++ year)) =
      [normSpaces (dates ++ " " ++ month ++ " " ++ year)] := by
  set t := normSpaces (dates ++ " " ++ month ++ " " ++ year) with ht
  have hcat : ∀ c ∈ (dates ++ " " ++ month ++ " " ++ year).toList, c ≠ '-' := by
    intro c hc
    simp only [List.all_eq_true, decide_eq_true_iff] at h1 h2 h3
    rcases (mem_toList_append _ _).mp hc with hc | hc
    · rcases (mem_toList_append _ _).mp hc with hc | hc
      · rcases (mem_toList_append _ _).mp hc with hc | hc
        · rcases (mem_toList_append _ _).mp hc with hc | hc
          · exact h1 c hc
          · rw [mem_toList_space.mp hc]; decide
        · exact h2 c hc
      · rw [mem_toList_space.mp hc]; decide
    · exact h3 c hc
  have hno : ∀ c ∈ t.toList, (fun c => c == '-') c = false := by
    intro c hc
    rcases normSpaces_chars _ c hc with rfl | hc
    · rfl
    · simpa using hcat c hc
  rw [pySplitHyphen, splitEvery_no_sep _ t.toList hno]
  simp [String.toList]

/-- C5: when the raw date text (and the month and year fields, which
the code splices into the split string) contains no hyphen, the
resolved start and end dates are identical — both parsed from the
single token plus month and year — and every calendar-write end bound
the record step uses (the query's `timeMax` and the created event's
exclusive `end.date`) equals that date plus one day. -/
theorem c5_no_separator_single_day (dates month year : String)
    (h1 : dates.toList.all (fun c => c ≠ '-') = true)
    (h2 : month.toList.all (fun c => c ≠ '-') = true)
    (h3 : year.toList.all (fun c => c ≠ '-') = true) :
    ∀ s e, resolveDates dates month year = some (s, e) →
      s = e ∧
      ∀ (r : TournamentRecord) (st : List CalEvent),
        r.dates = dates → r.month = month → r.year = year →
        ∀ op ∈ (processRecord false false st r).2.2,
          (match op with
           | CalOp.listq _ _ tmax => tmax = nextDay e
           | CalOp.insert ev => ev.endDate = nextDay e
           | _ => True) := by
  intro s e h
  have hsingle := no_hyphen_single_part dates month year h1 h2 h3
  have hpr : parseRawRange dates month year =
      (parserParse (normSpaces (dates ++ " " ++ month ++ " " ++ year))).bind
        (fun d => some (d, d)) := by
    rw [parseRawRange]
    simp only [hsingle]
    simp
  have hse : s = e := by
    rw [resolveDates, hpr] at h
    cases hp : parserParse (normSpaces (dates ++ " " ++ month ++ " " ++ year)) with
    | none => rw [hp] at h; simp at h
    | some d =>
      rw [hp] at h
      simp [ltB_irrefl] at h
      rw [← h.1, ← h.2]
  refine ⟨hse, ?_⟩
  intro r st hr1 hr2 hr3 op hop
  have hres : resolveDates r.dates r.month r.year = some (s, e) := by
    rw [hr1, hr2, hr3]; exact h
  rcases processRecord_shape st r with ⟨hnone, hp⟩ | ⟨s', e', hres', _, hp⟩ |
      ⟨s', e', hres', _, hp⟩
  · rw [hres] at hnone; cases hnone
  · rw [hres] at hres'
    obtain ⟨rfl, rfl⟩ : s' = s ∧ e' = e := by
      have h3 := Option.some.inj hres'
      simp only [Prod.mk.injEq] at h3
      exact ⟨h3.1.symm, h3.2.symm⟩
    rw [hp] at hop
    rcases List.mem_cons.mp hop with rfl | hop
    · exact rfl
    · rcases List.mem_cons.mp hop with rfl | hop
      · exact rfl
      · simp at hop
  · rw [hres] at hres'
    obtain ⟨rfl, rfl⟩ : s' = s ∧ e' = e := by
      have h3 := Option.some.inj hres'
      simp only [Prod.mk.injEq] at h3
      exact ⟨h3.1.symm, h3.2.symm⟩
    rw [hp] at hop
    rcases List.mem_cons.mp hop with rfl | hop
    · exact rfl
    · simp at hop

/-- A no-separator record used by the C5 witness. -/
def rec5 : TournamentRecord := { rec9 with dates := "18" }

/-- Witness for C5 at rawDateRange "18", month "August", year "2025":
start and end coincide at 2025-08-18 and the record step's write-end
bound is 2025-08-19 = that date plus one day. -/
theorem c5_no_separator_single_day_witness :
    resolveDates "18" "August" "2025" =
        some (⟨2025, 8, 18⟩, ⟨2025, 8, 18⟩) ∧
      (⟨2025, 8, 18⟩ : Date) = ⟨2025, 8, 18⟩ ∧
      (⟨2025, 8, 19⟩ : Date) = nextDay ⟨2025, 8, 18⟩ := by
  have hmain := c5_no_separator_single_day "18" "August" "2025" rfl rfl rfl
    ⟨2025, 8, 18⟩ ⟨2025, 8, 18⟩ rfl
  refine ⟨rfl, hmain.1, ?_⟩
  have hmem : CalOp.listq "China Open" ⟨2025, 8, 18⟩ ⟨2025, 8, 19⟩ ∈
      (processRecord false false [] rec5).2.2 := by
    rw [show (processRecord false false [] rec5).2.2 =
          [CalOp.listq "China Open" ⟨2025, 8, 18⟩ ⟨2025, 8, 19⟩,
           CalOp.insert { summary := "China Open (HSBC BWF WORLD TOUR SUPER 1000)",
                          location := "Changzhou, CHN",
                          description := some "Prize Money: USD 2,000,000",
                          startDate := ⟨2025, 8, 18⟩,
                          endDate := ⟨2025, 8, 19⟩ }] from rfl]
    exact List.mem_cons_self _ _
  exact hmain.2 rec5 [] rfl rfl rfl
    (CalOp.listq "China Open" ⟨2025, 8, 18⟩ ⟨2025, 8, 19⟩) hmem

/-- After a full run, every record whose resolved range is properly
ordered has a matching event in the final calendar state (either it
was found already, or the run inserted it). -/
theorem run_query_nonempty :
    ∀ (recs : List TournamentRecord) (st : List CalEvent),
      (∀ r ∈ recs, ∃ s e,
          resolveDates r.dates r.month r.year = some (s, e) ∧
          Date.leB s e = true) →
      ∀ r ∈ recs, ∀ s e, resolveDates r.dates r.month r.year = some (s, e) →
        listEvents (create_calendar_events recs st).1 r.name s (nextDay e) ≠
          [] := by
  intro recs
  induction recs with
  | nil => intro st _ r hr; cases hr
  | cons r0 rs ih =>
    intro st hwf r hr s e hres
    have hstep : (create_calendar_events (r0 :: rs) st).1 =
        (create_calendar_events rs (processRecord false false st r0).1).1 := by
      simp only [create_calendar_events]
    rcases List.mem_cons.mp hr with rfl | hr
    · obtain ⟨s0, e0, hres0, hle0⟩ := hwf r (List.mem_cons_self _ _)
      rw [hres] at hres0
      simp only [Option.some.injEq, Prod.mk.injEq] at hres0
      obtain ⟨rfl, rfl⟩ : s = s0 ∧ e = e0 := hres0
      have hne : listEvents (processRecord false false st r).1
          r.name s (nextDay e) ≠ [] := by
        rcases processRecord_shape st r with ⟨hnone, _⟩ |
            ⟨s', e', hres', hnil, hp⟩ | ⟨s', e', hres', hnn, hp⟩
        · rw [hres] at hnone; cases hnone
        · rw [hres] at hres'
          simp only [Option.some.injEq, Prod.mk.injEq] at hres'
          obtain ⟨rfl, rfl⟩ : s = s' ∧ e = e' := hres'
          rw [hp]
          simp only
          rw [listEvents_append]
          intro hc
          have hright := (List.append_eq_nil.mp hc).2
          rw [show listEvents [mkEvent r s (nextDay e)] r.name s (nextDay e) =
                [mkEvent r s (nextDay e)] by
              simp [listEvents, mkEvent_self_match r s e hle0]] at hright
          cases hright
        · rw [hres] at hres'
          simp only [Option.some.injEq, Prod.mk.injEq] at hres'
          obtain ⟨rfl, rfl⟩ : s = s' ∧ e = e' := hres'
          rw [hp]
          exact hnn
      obtain ⟨ext, hext⟩ := run_extends rs (processRecord false false st r).1
      rw [hstep, hext]
      exact listEvents_ne_nil_mono ext hne
    · rw [hstep]
      exact ih (processRecord false false st r0).1
        (fun r' hr' => hwf r' (List.mem_cons_of_mem _ hr')) r hr s e hres

/-- If every record resolves and already has a matching event in the
calendar, a run changes nothing and reports "already exists"
throughout. -/
theorem run_all_skip :
    ∀ (recs : List TournamentRecord) (st : List CalEvent),
      (∀ r ∈ recs, ∃ s e,
          resolveDates r.dates r.month r.year = some (s, e)) →
      (∀ r ∈ recs, ∀ s e, resolveDates r.dates r.month r.year = some (s, e) →
          listEvents st r.name s (nextDay e) ≠ []) →
      create_calendar_events recs st =
        (st, recs.map fun _ => Outcome.alreadyExists) := by
  intro recs
  induction recs with
  | nil => intro st _ _; rfl
  | cons r0 rs ih =>
    intro st hres hq
    obtain ⟨s, e, hres0⟩ := hres r0 (List.mem_cons_self _ _)
    have hq0 := hq r0 (List.mem_cons_self _ _) s e hres0
    have hstep : processRecord false false st r0 =
        (st, Outcome.alreadyExists, [CalOp.listq r0.name s (nextDay e)]) := by
      rcases processRecord_shape st r0 with ⟨hnone, _⟩ |
          ⟨s', e', hres', hnil, hp⟩ | ⟨s', e', hres', hnn, hp⟩
      · rw [hres0] at hnone; cases hnone
      · rw [hres0] at hres'
        simp only [Option.some.injEq, Prod.mk.injEq] at hres'
        obtain ⟨rfl, rfl⟩ : s = s' ∧ e = e' := hres'
        exact absurd hnil hq0
      · rw [hres0] at hres'
        simp only [Option.some.injEq, Prod.mk.injEq] at hres'
        obtain ⟨rfl, rfl⟩ : s = s' ∧ e = e' := hres'
        exact hp
    simp only [create_calendar_events, hstep,
      ih st (fun r hr => hres r (List.mem_cons_of_mem _ hr))
        (fun r hr s' e' h' => hq r (List.mem_cons_of_mem _ hr) s' e' h'),
      List.map]

/-- C6: running the reconciler a second time over the same records,
starting from the state the first run left behind (the external
calendar otherwise unchanged), leaves the calendar state untouched
and reports "already exists" for every record — zero duplicates.
The hypothesis is the spec's ResolvedDateRange invariant: every
record resolves, to a properly ordered range. -/
theorem c6_second_run_idempotent (recs : List TournamentRecord)
    (st0 : List CalEvent)
    (hwf : ∀ r ∈ recs, ∃ s e,
        resolveDates r.dates r.month r.year = some (s, e) ∧
        Date.leB s e = true) :
    create_calendar_events recs (create_calendar_events recs st0).1 =
      ((create_calendar_events recs st0).1,
        recs.map fun _ => Outcome.alreadyExists) := by
  apply run_all_skip
  · intro r hr
    obtain ⟨s, e, h, _⟩ := hwf r hr
    exact ⟨s, e, h⟩
  · intro r hr s e hres
    exact run_query_nonempty recs st0 hwf r hr s e hres

/-- Witness for C6: the first run on `rec9` from the empty calendar
creates `ev9`; the second run from `[ev9]` changes nothing and
reports "already exists". -/
theorem c6_second_run_idempotent_witness :
    (create_calendar_events [rec9] []).1 = [ev9] ∧
      create_calendar_events [rec9] [ev9] =
        ([ev9], [Outcome.alreadyExists]) := by
  refine ⟨rfl, ?_⟩
  have h := c6_second_run_idempotent [rec9] [] (by
    intro r hr
    simp only [List.mem_singleton] at hr
    subst hr
    exact ⟨⟨2025, 8, 18⟩, ⟨2025, 8, 24⟩, rfl, rfl⟩)
  rw [show (create_calendar_events [rec9] []).1 = [ev9] from rfl] at h
  simpa using h

/-- A failing record step leaves the calendar state unchanged. -/
theorem processRecord_fail_state (qf inf : Bool) (st : List CalEvent)
    (r : TournamentRecord)
    (h : (processRecord qf inf st r).2.1 = Outcome.dateError ∨
        (processRecord qf inf st r).2.1 = Outcome.serviceError) :
    (processRecord qf inf st r).1 = st := by
  rw [processRecord] at h ⊢
  cases hres : resolveDates r.dates r.month r.year with
  | none => simp
  | some pr =>
    obtain ⟨s, e⟩ := pr
    by_cases hqf : qf = true
    · simp [hqf]
    · by_cases hemp : (listEvents st r.name s (nextDay e)).isEmpty = true
      · by_cases hinf : inf = true
        · simp [hqf, hemp, hinf]
        · exfalso
          simp [hqf, hemp, hinf, hres] at h
      · simp [hqf, hemp]

/-- C8: every record of a batch yields exactly one outcome (the run
always completes), and a record that fails — unparseable dates, or a
service error on its query or insert — leaves the calendar state
unchanged, the remaining records being processed exactly as they
would be without it. -/
theorem c8_per_record_isolation :
    (∀ (sched : List (TournamentRecord × Bool × Bool)) (st : List CalEvent),
        (runSched sched st).2.length = sched.length) ∧
      (∀ (r : TournamentRecord) (qf inf : Bool)
          (rest : List (TournamentRecord × Bool × Bool)) (st : List CalEvent),
          ((processRecord qf inf st r).2.1 = Outcome.dateError ∨
              (processRecord qf inf st r).2.1 = Outcome.serviceError) →
          (processRecord qf inf st r).1 = st ∧
            runSched ((r, qf, inf) :: rest) st =
              ((runSched rest st).1,
                (processRecord qf inf st r).2.1 :: (runSched rest st).2)) := by
  constructor
  · intro sched
    induction sched with
    | nil => intro st; rfl
    | cons x xs ih =>
      intro st
      obtain ⟨r, qf, inf⟩ := x
      simp only [runSched, List.length_cons, ih]
  · intro r qf inf rest st h
    have hst := processRecord_fail_state qf inf st r h
    refine ⟨hst, ?_⟩
    simp only [runSched, hst]

/-- Witness for C8: a batch of a cross-month record (whose date text
the resolver rejects) followed by `rec9`: both records get outcomes,
the failing record leaves the state unchanged, and `rec9` is still
created. -/
theorem c8_per_record_isolation_witness :
    runSched [({ rec9 with dates := "28 Jul - 3 Aug", month := "July" },
          false, false), (rec9, false, false)] [] =
        ([ev9], [Outcome.dateError, Outcome.created]) ∧
      (runSched [({ rec9 with dates := "28 Jul - 3 Aug", month := "July" },
          false, false), (rec9, false, false)] []).2.length = 2 ∧
      (processRecord false false []
          { rec9 with dates := "28 Jul - 3 Aug", month := "July" }).1 = [] ∧
      runSched [({ rec9 with dates := "28 Jul - 3 Aug", month := "July" },
          false, false), (rec9, false, false)] [] =
        ((runSched [(rec9, false, false)] []).1,
          (processRecord false false []
              { rec9 with dates := "28 Jul - 3 Aug", month := "July" }).2.1 ::
            (runSched [(rec9, false, false)] []).2) := by
  refine ⟨rfl, c8_per_record_isolation.1 _ [], ?_, ?_⟩
  · exact (c8_per_record_isolation.2
      { rec9 with dates := "28 Jul - 3 Aug", month := "July" } false false
      [(rec9, false, false)] [] (Or.inl rfl)).1
  · exact (c8_per_record_isolation.2
      { rec9 with dates := "28 Jul - 3 Aug", month := "July" } false false
      [(rec9, false, false)] [] (Or.inl rfl)).2

end BWF
